import Mathlib

/-!
Verification of the redtape authorization engine (`condition.go`: the
condition registry and built-in conditions, and the enforcer's decision
pipeline `Enforce` / `evalPolicy` / `checkConditions`), shallowly embedded
in Lean 4. Go interface values passed around as `interface{}` are modelled
by the closed `GoValue` type; Go maps are modelled by association lists with
overwrite-on-insert; fallible Go calls returning `(T, error)` are modelled
with `Except GoError T`.
-/

namespace Redtape

/-- A dynamic value carried in a request's metadata map (Go `interface{}`).
`vnone` is the nil interface value (also the zero value a Go map lookup
yields for an absent key); `vother` stands for any dynamic type other than
`bool` and `string` (no built-in condition distinguishes among those). -/
inductive GoValue where
  | vbool : Bool → GoValue
  | vstr : String → GoValue
  | vnone : GoValue
  | vother : GoValue
deriving DecidableEq, Repr

/-- Modelled from the spec: the `Request` type is not under src/ (only its
uses are). Per the spec's data model it carries the actor role, action,
resource, scope, and an opaque contextual-metadata carrier keyed by string;
`Context` here holds that metadata carrier directly. -/
structure Request where
  Role : String
  Action : String
  Resource : String
  Scope : String
  Context : List (String × GoValue)

/-- Modelled from the spec: `RequestMetadataFromContext` is not under src/;
it extracts the contextual-metadata carrier from the request context. -/
def RequestMetadataFromContext (ctx : List (String × GoValue)) : List (String × GoValue) :=
  ctx

/-- Go map indexing `meta[key]`: the bound value, or the zero value (nil
interface, i.e. `GoValue.vnone`) when the key is absent. -/
def lookupMeta (m : List (String × GoValue)) (k : String) : GoValue :=
  match m.find? (fun kv => kv.1 = k) with
  | some kv => kv.2
  | none => GoValue.vnone

/-- The `Condition` interface: a name and `Meets(value, request) → bool`. -/
structure Condition where
  Name : String
  Meets : GoValue → Request → Bool

/-- `BoolCondition` matches a boolean value from context to the
preconfigured value. -/
structure BoolCondition where
  Value : Bool
deriving DecidableEq, Repr

/-- `BoolCondition.Name` returns "bool". -/
def BoolCondition.CName (_ : BoolCondition) : String := "bool"

/-- `BoolCondition.Meets`: the type assertion `val.(bool)` succeeds and the
boolean equals the configured `Value`. -/
def BoolCondition.Meets (c : BoolCondition) (val : GoValue) (_ : Request) : Bool :=
  match val with
  | GoValue.vbool v => v == c.Value
  | _ => false

def BoolCondition.asCondition (c : BoolCondition) : Condition :=
  ⟨c.CName, c.Meets⟩

/-- `RoleEqualsCondition` matches the request role against the value. -/
structure RoleEqualsCondition where
deriving DecidableEq, Repr

/-- `RoleEqualsCondition.Name` returns "role_equals". -/
def RoleEqualsCondition.CName (_ : RoleEqualsCondition) : String := "role_equals"

/-- `RoleEqualsCondition.Meets`: the type assertion `val.(string)` succeeds
and the string equals `r.Role`. -/
def RoleEqualsCondition.Meets (_ : RoleEqualsCondition) (val : GoValue) (r : Request) : Bool :=
  match val with
  | GoValue.vstr s => s == r.Role
  | _ => false

def RoleEqualsCondition.asCondition (c : RoleEqualsCondition) : Condition :=
  ⟨c.CName, c.Meets⟩

/-! ### IP parsing (model of the Go standard library `net` package)

`IPWhitelistCondition.Meets` calls `net.ParseCIDR`, `net.ParseIP` and
`IPNet.Contains`. These live in the Go standard library, not in this
repository; they are modelled here for IPv4 (dotted-quad) addresses, the
only address family the specification exercises. An IPv4 address is a
`Nat` below 2^32; a parsed CIDR network is its masked base address paired
with its prefix length. -/

/-- Decimal digits to a number (the characters are known to be digits). -/
def digitsToNat (l : List Char) : Nat :=
  l.foldl (fun a c => a * 10 + (c.toNat - 48)) 0

/-- Split a character list at every occurrence of `sep` (the semantics of
`strings.Split` for a one-character separator: never empty, and the empty
input yields one empty field). -/
def splitChar (sep : Char) : List Char → List (List Char)
  | [] => [[]]
  | c :: rest =>
    let r := splitChar sep rest
    if c = sep then [] :: r
    else
      match r with
      | h :: t => (c :: h) :: t
      | [] => [[c]]

/-- One dotted-decimal IPv4 field: 1–3 digits, value ≤ 255, no leading
zero (Go rejects leading zeros in dotted-decimal fields). -/
def parseOctet (l : List Char) : Option Nat :=
  if l.length = 0 ∨ l.length > 3 then none
  else if ¬ l.all Char.isDigit then none
  else if l.length > 1 ∧ l.head? = some (Char.ofNat 48) then none
  else
    let n := digitsToNat l
    if n > 255 then none else some n

/-- Model of `net.ParseIP` restricted to IPv4 dotted-quad form, as a
32-bit number; other forms (including IPv6) parse to `none`. -/
def parseIPv4Chars (l : List Char) : Option Nat :=
  match (splitChar (Char.ofNat 46) l).mapM parseOctet with
  | some [a, b, c, d] => some (((a * 256 + b) * 256 + c) * 256 + d)
  | _ => none

/-- `net.ParseIP` on a string value (IPv4 model). -/
def parseIPv4 (s : String) : Option Nat :=
  parseIPv4Chars s.toList

/-- Mask bits of a CIDR suffix: all digits, value ≤ 32. -/
def parseMaskBits (l : List Char) : Option Nat :=
  if l.length = 0 ∨ ¬ l.all Char.isDigit then none
  else
    let n := digitsToNat l
    if n > 32 then none else some n

/-- Keep the top `bits` bits of a 32-bit address, zeroing the rest. -/
def applyMask (ip bits : Nat) : Nat :=
  ip / 2 ^ (32 - bits) * 2 ^ (32 - bits)

/-- Model of `net.ParseCIDR` on IPv4 networks: "addr/bits" with `addr` a
dotted quad and `bits ≤ 32`; the result is the masked base address and the
prefix length (Go returns `&IPNet{IP: ip.Mask(mask), Mask: mask}`; Go
splits at the first slash and then rejects a mask with trailing garbage,
which coincides with splitting at every slash and requiring two fields). -/
def parseCIDR (s : String) : Option (Nat × Nat) :=
  match splitChar (Char.ofNat 47) s.toList with
  | [a, m] =>
    match parseIPv4Chars a, parseMaskBits m with
    | some ip, some bits => some (applyMask ip bits, bits)
    | _, _ => none
  | _ => none

/-- Model of `IPNet.Contains`: the candidate address masked to the
network's prefix length equals the network's base address. -/
def cidrContains (c : Nat × Nat) (ip : Nat) : Bool :=
  applyMask ip c.2 == c.1

/-- `IPWhitelistCondition` performs CIDR matching for a range of Networks
against a provided value. -/
structure IPWhitelistCondition where
  Networks : List String
deriving DecidableEq, Repr

/-- `IPWhitelistCondition.Name` returns "ip_whitelist". -/
def IPWhitelistCondition.CName (_ : IPWhitelistCondition) : String := "ip_whitelist"

/-- The `for _, ns := range c.Networks` loop body of
`IPWhitelistCondition.Meets`: note that a malformed CIDR entry
(`net.ParseCIDR` error) makes the whole loop `return false` immediately,
exactly as the Go code does. -/
def ipMeetsLoop (ip : String) : List String → Bool
  | [] => false
  | ns :: rest =>
    match parseCIDR ns with
    | none => false
    | some cidr =>
      match parseIPv4 ip with
      | none => false
      | some tip => if cidrContains cidr tip then true else ipMeetsLoop ip rest

/-- `IPWhitelistCondition.Meets`: the type assertion `val.(string)` must
succeed, then the networks are scanned by `ipMeetsLoop`. -/
def IPWhitelistCondition.Meets (c : IPWhitelistCondition) (val : GoValue) (_ : Request) : Bool :=
  match val with
  | GoValue.vstr ip => ipMeetsLoop ip c.Networks
  | _ => false

def IPWhitelistCondition.asCondition (c : IPWhitelistCondition) : Condition :=
  ⟨c.CName, c.Meets⟩

/-- Modelled from the spec: the concrete error types behind
`NewErrRequestDeniedExplicit` / `NewErrRequestDeniedImplicit` are not
under src/. The spec's error taxonomy has two structured denial kinds plus
verbatim-propagated infrastructure errors, distinguishable from each
other; `generic` stands for an arbitrary Go error produced by a
collaborator (Policy Manager, Matcher, or option decoding). -/
inductive GoError where
  | errRequestDeniedExplicit : String → GoError
  | errRequestDeniedImplicit : String → GoError
  | generic : String → GoError
deriving DecidableEq, Repr

/-- Modelled from the spec: wraps an inner error message as an
explicit-denial error. -/
def NewErrRequestDeniedExplicit (inner : String) : GoError :=
  GoError.errRequestDeniedExplicit inner

/-- Modelled from the spec: wraps an inner error message as an
implicit-denial error. -/
def NewErrRequestDeniedImplicit (inner : String) : GoError :=
  GoError.errRequestDeniedImplicit inner

/-! ### Condition registry and `NewConditions` -/

/-- `ConditionBuilder` is a typed function that returns a Condition. -/
def ConditionBuilder := Unit → Condition

/-- `ConditionRegistry` is a map containing named ConditionBuilders,
modelled as a lookup function (Go map indexing `reg[co.Type]` with its
present/absent flag becomes `Option`). -/
def ConditionRegistry := String → Option ConditionBuilder

/-- The registry contents `NewConditionRegistry` starts from: the three
built-in conditions keyed by their `Name()` values, each builder returning
a fresh zero-value instance (`new(BoolCondition)` etc.). -/
def defaultRegistryBase : ConditionRegistry := fun t =>
  if t = "bool" then some fun _ => (BoolCondition.mk false).asCondition
  else if t = "role_equals" then some fun _ => RoleEqualsCondition.asCondition ⟨⟩
  else if t = "ip_whitelist" then some fun _ => (IPWhitelistCondition.mk []).asCondition
  else none

/-- `NewConditionRegistry`: the default registry extended (and possibly
overridden) by the caller-supplied entries, in order. -/
def NewConditionRegistry (conds : List (String × ConditionBuilder)) : ConditionRegistry :=
  conds.foldl (fun reg kv t => if t = kv.1 then some kv.2 else reg t) defaultRegistryBase

/-- `ConditionOptions` contains the values used to build a Condition. The
free-form `Options` bag (Go `map[string]interface{}`) is an association
list. -/
structure ConditionOptions where
  Name : String
  -- the Go field is `Type`; Lean reserves that word for its own sorts
  CType : String
  Options : List (String × GoValue)

/-- `Conditions` is a map of named Conditions, modelled as an association
list with overwrite-on-insert (`condInsert`). -/
def Conditions := List (String × Condition)

/-- Go map assignment `cond[name] = nc`: any previous binding of `name`
is replaced. -/
def condInsert (m : Conditions) (k : String) (v : Condition) : Conditions :=
  List.filter (fun kv => kv.1 ≠ k) m ++ [(k, v)]

/-- Go map lookup with a present/absent flag. -/
def condLookup (m : Conditions) (k : String) : Option Condition :=
  (List.find? (fun kv => kv.1 = k) m).map fun kv => kv.2

/-- A model of `mapstructure.Decode(co.Options, &nc)` (the mapstructure
package is an external library): given the option bag and the freshly
built condition it either produces the decoded condition or fails. Taken
as a parameter so results hold for every decoding behaviour. -/
def DecodeFn := List (String × GoValue) → Condition → Except GoError Condition

/-- The `for _, co := range opts` loop of `NewConditions`: an unregistered
`co.Type` is skipped silently; otherwise a fresh condition is built, the
non-empty option bag is decoded into it (a decode error aborts the whole
build), and the result is stored under `co.Name`. -/
def newConditionsLoop (decode : DecodeFn) (reg : ConditionRegistry) :
    List ConditionOptions → Conditions → Except GoError Conditions
  | [], acc => Except.ok acc
  | co :: rest, acc =>
    match reg co.CType with
    | none => newConditionsLoop decode reg rest acc
    | some cf =>
      let nc := cf ()
      if co.Options.length > 0 then
        match decode co.Options nc with
        | Except.error err => Except.error err
        | Except.ok nc2 => newConditionsLoop decode reg rest (condInsert acc co.Name nc2)
      else
        newConditionsLoop decode reg rest (condInsert acc co.Name nc)

/-- `NewConditions` accepts an array of options and an optional
ConditionRegistry (`nil` selects `NewConditionRegistry()`) and returns a
Conditions map. -/
def NewConditions (decode : DecodeFn) (opts : List ConditionOptions)
    (reg : Option ConditionRegistry) : Except GoError Conditions :=
  newConditionsLoop decode (reg.getD (NewConditionRegistry [])) opts []

/-! ### The enforcer's data model -/

/-- Modelled from the spec: the `PolicyEffect` constants
(`PolicyEffectAllow` / `PolicyEffectDeny`) are not under src/. The spec's
data model says a policy's effect is exactly one of `Allow` or `Deny`. -/
inductive PolicyEffect where
  | allow
  | deny
deriving DecidableEq, Repr

/-- Modelled from the spec: the `Policy` type is not under src/ (only its
accessor calls are). Per the spec's data model it is an identity, an
effect, four pattern sets, and a map from condition-key-name to a
`Condition`; the latter map (ranged over in `checkConditions`) is modelled
as an association list. Field names follow the accessors `ID()`,
`Effect()`, `Actions()`, `Roles()`, `Resources()`, `Scopes()`,
`Conditions()` used in src/. -/
structure Policy where
  ID : String
  Effect : PolicyEffect
  Actions : List String
  Roles : List String
  Resources : List String
  Scopes : List String
  Conditions : List (String × Condition)

/-- Modelled from the spec: the `Matcher` interface is not under src/. §4.2
gives its exact shape: `MatchPolicy(policy, patternSet, value) → (bool,
error)` and `MatchRole(rolePattern, requestRole) → (bool, error)`; any
implementation may be injected, so it is a structure of functions. -/
structure Matcher where
  MatchPolicy : Policy → List String → String → Except GoError Bool
  MatchRole : String → String → Except GoError Bool

/-- Modelled from the spec: the `PolicyManager` interface is not under
src/. §6 gives its exact shape: `FindByRequest(request) → (sequence of
Policy, error)`. -/
structure PolicyManager where
  FindByRequest : Request → Except GoError (List Policy)

/-- The unexported `enforcer` struct holding the injected
`PolicyManager`, `Matcher` and `Auditor`. The `Auditor` interface is not
under src/ and `Enforce` never calls it, so it is modelled as an optional
value of an arbitrary type `α` (`none` is a nil auditor). -/
structure enforcer (α : Type) where
  manager : PolicyManager
  matcher : Matcher
  auditor : Option α

/-- `NewEnforcer` combines a PolicyManager, Matcher, and Auditor; it
always succeeds. -/
def NewEnforcer (manager : PolicyManager) (matcher : Matcher) (auditor : Option α) :
    Except GoError (enforcer α) :=
  Except.ok ⟨manager, matcher, auditor⟩

/-! ### The decision pipeline -/

/-- `enforcer.checkConditions`: every condition attached to the policy
must hold of the metadata value looked up under that condition's key name
(`meta[key]`); any `false` fails the whole policy. -/
def checkConditions (p : Policy) (r : Request) : Bool :=
  p.Conditions.all fun kv =>
    kv.2.Meets (lookupMeta (RequestMetadataFromContext r.Context) kv.1) r

/-- The `for _, role := range p.Roles()` loop of `enforcer.evalPolicy`:
logical OR over the role patterns with short-circuit on the first match;
a `MatchRole` error aborts with that error. -/
def matchRoles (e : enforcer α) (r : Request) : List String → Except GoError Bool
  | [] => Except.ok false
  | role :: rest =>
    match e.matcher.MatchRole role r.Role with
    | Except.error err => Except.error err
    | Except.ok true => Except.ok true
    | Except.ok false => matchRoles e r rest

/-- `enforcer.evalPolicy`: action, role, resource and scope stages in
order (each non-match skips the policy, each Matcher error aborts), then
`checkConditions`. -/
def evalPolicy (e : enforcer α) (r : Request) (p : Policy) : Except GoError Bool :=
  match e.matcher.MatchPolicy p p.Actions r.Action with
  | Except.error err => Except.error err
  | Except.ok false => Except.ok false
  | Except.ok true =>
    match matchRoles e r p.Roles with
    | Except.error err => Except.error err
    | Except.ok false => Except.ok false
    | Except.ok true =>
      match e.matcher.MatchPolicy p p.Resources r.Resource with
      | Except.error err => Except.error err
      | Except.ok false => Except.ok false
      | Except.ok true =>
        match e.matcher.MatchPolicy p p.Scopes r.Scope with
        | Except.error err => Except.error err
        | Except.ok false => Except.ok false
        | Except.ok true =>
          if checkConditions p r then Except.ok true else Except.ok false

/-- The `for _, p := range pol` loop of `enforcer.Enforce`, carrying the
`matched` slice and the `allow` flag. A matching Deny returns an
explicit-denial error at once; after the loop, no allow under a Deny
default effect is an implicit denial, otherwise success. -/
def enforceLoop (e : enforcer α) (deff : PolicyEffect) (r : Request) :
    List Policy → List Policy → Bool → Except GoError Unit
  | [], _matched, allow =>
    if allow = false ∧ deff = PolicyEffect.deny then
      Except.error (NewErrRequestDeniedImplicit "access denied because no policy allowed access")
    else
      Except.ok ()
  | p :: rest, matched, allow =>
    match evalPolicy e r p with
    | Except.error err => Except.error err
    | Except.ok false => enforceLoop e deff r rest matched allow
    | Except.ok true =>
      if p.Effect = PolicyEffect.deny then
        Except.error (NewErrRequestDeniedExplicit ("access denied by policy " ++ p.ID))
      else
        enforceLoop e deff r rest (matched ++ [p]) true

/-- `enforcer.Enforce`. `DefaultPolicyEffect` is a process-wide
configuration value not under src/ (modelled from the spec §6 as a single
`Allow`/`Deny` value, read once); it is passed here as the explicit
argument `deff`. A Policy Manager error is returned verbatim; otherwise
the candidate loop runs over the returned policies in order. -/
def Enforce (e : enforcer α) (deff : PolicyEffect) (r : Request) : Except GoError Unit :=
  match e.manager.FindByRequest r with
  | Except.error err => Except.error err
  | Except.ok pol => enforceLoop e deff r pol [] false

/-! ### Concrete instances used to exercise the theorems -/

/-- A matcher doing exact string equality: a pattern set matches when it
contains the value, a role pattern matches when it equals the role. -/
def exactMatcher : Matcher :=
  ⟨fun _ pats v => Except.ok (pats.contains v), fun pat role => Except.ok (pat == role)⟩

/-- A matcher whose every operation reports success. -/
def allMatcher : Matcher :=
  ⟨fun _ _ _ => Except.ok true, fun _ _ => Except.ok true⟩

/-- A matcher whose every operation reports failure to match. -/
def noneMatcher : Matcher :=
  ⟨fun _ _ _ => Except.ok false, fun _ _ => Except.ok false⟩

/-- A matcher whose every operation errors. -/
def errMatcher (msg : String) : Matcher :=
  ⟨fun _ _ _ => Except.error (GoError.generic msg),
   fun _ _ => Except.error (GoError.generic msg)⟩

/-- A policy manager returning a fixed candidate list for any request. -/
def listManager (ps : List Policy) : PolicyManager :=
  ⟨fun _ => Except.ok ps⟩

/-- A policy manager failing with a fixed error for any request. -/
def failManager (msg : String) : PolicyManager :=
  ⟨fun _ => Except.error (GoError.generic msg)⟩

/-- The request of the spec's worked scenario. -/
def sampleReq : Request :=
  ⟨"admin", "read", "doc1", "default", []⟩

/-- The spec scenario's allow policy P1. -/
def pAllow : Policy :=
  ⟨"p1", PolicyEffect.allow, ["read"], ["admin"], ["doc1"], ["default"], []⟩

/-- The spec scenario's deny policy P2 (exact resource rather than a
wildcard, so the exact-string matcher applies). -/
def pDeny : Policy :=
  ⟨"p2", PolicyEffect.deny, ["read"], ["admin"], ["doc1"], ["default"], []⟩

/-- A policy that does not match `sampleReq` (different action). -/
def pOther : Policy :=
  ⟨"p3", PolicyEffect.allow, ["write"], ["admin"], ["doc1"], ["default"], []⟩

/-- An enforcer over a fixed policy list, exact matching, nil auditor. -/
def sampleEnforcer (ps : List Policy) : enforcer Unit :=
  ⟨listManager ps, exactMatcher, none⟩

/-- The worked scenario's allow policy extended with a `bool` condition
under key "mfa". -/
def pCond : Policy :=
  ⟨"p4", PolicyEffect.allow, ["read"], ["admin"], ["doc1"], ["default"],
    [("mfa", (BoolCondition.mk true).asCondition)]⟩

/-- The worked scenario's request carrying metadata `mfa ↦ true`. -/
def sampleReqMeta : Request :=
  ⟨"admin", "read", "doc1", "default", [("mfa", GoValue.vbool true)]⟩

/-- A policy well-formed in every dimension except that its role-pattern
list is empty. -/
def pNoRole : Policy :=
  ⟨"p5", PolicyEffect.allow, ["read"], [], ["doc1"], ["default"], []⟩

/-- A decoding behaviour that leaves the freshly built condition as is. -/
def idDecode : DecodeFn := fun _ c => Except.ok c

/-- A decoding behaviour that always fails. -/
def failDecode : DecodeFn := fun _ _ => Except.error (GoError.generic "decode failed")

/-- An option entry whose type is not registered. -/
def coUnknown : ConditionOptions := ⟨"mystery", "unregistered_type", []⟩

/-- An option entry selecting the built-in `bool` condition type under
the distinct name "myflag", with a non-empty option bag. -/
def coBool : ConditionOptions := ⟨"myflag", "bool", [("value", GoValue.vbool true)]⟩

example : evalPolicy (sampleEnforcer []) sampleReq pAllow = Except.ok true := by rfl
example : evalPolicy (sampleEnforcer []) sampleReq pOther = Except.ok false := by rfl
example : Enforce (sampleEnforcer [pAllow, pDeny]) PolicyEffect.deny sampleReq =
    Except.error (GoError.errRequestDeniedExplicit "access denied by policy p2") := by rfl
example : Enforce (sampleEnforcer [pAllow]) PolicyEffect.deny sampleReq = Except.ok () := by rfl
example : Enforce (sampleEnforcer []) PolicyEffect.deny sampleReq =
    Except.error (GoError.errRequestDeniedImplicit
      "access denied because no policy allowed access") := by rfl
example : IPWhitelistCondition.Meets ⟨["10.0.0.0/24"]⟩ (GoValue.vstr "10.0.0.5") sampleReq
    = true := by rfl
example : IPWhitelistCondition.Meets ⟨["10.0.0.0/24"]⟩ (GoValue.vstr "10.0.1.5") sampleReq
    = false := by rfl
example : IPWhitelistCondition.Meets ⟨["not a cidr", "10.0.0.0/24"]⟩ (GoValue.vstr "10.0.0.5")
    sampleReq = false := by rfl

/-! ### Lemmas on the candidate loop

A policy is "inert" for a request when evaluating it neither errors nor
ends the loop: it fails to match, or matches with effect `Allow`. -/

/-- Inert head policies: the loop's result on a list whose prefix is inert
equals its result on the suffix, whenever the suffix's result does not
depend on the accumulators. -/
lemma enforceLoop_inert_front (e : enforcer α) (deff : PolicyEffect) (r : Request)
    (out : Except GoError Unit) :
    ∀ l1 rest : List Policy,
      (∀ q ∈ l1, evalPolicy e r q = Except.ok false ∨
        (evalPolicy e r q = Except.ok true ∧ q.Effect = PolicyEffect.allow)) →
      (∀ ms al, enforceLoop e deff r rest ms al = out) →
      ∀ ms al, enforceLoop e deff r (l1 ++ rest) ms al = out := by
  intro l1
  induction l1 with
  | nil =>
    intro rest _ hrest ms al
    simpa using hrest ms al
  | cons q l1 ih =>
    intro rest hl1 hrest ms al
    have hq := hl1 q (by simp)
    have hl1' : ∀ q2 ∈ l1, evalPolicy e r q2 = Except.ok false ∨
        (evalPolicy e r q2 = Except.ok true ∧ q2.Effect = PolicyEffect.allow) := by
      intro q2 hq2
      exact hl1 q2 (by simp [hq2])
    rcases hq with h | ⟨h, heff⟩
    · rw [List.cons_append]
      show enforceLoop e deff r (q :: (l1 ++ rest)) ms al = out
      simp only [enforceLoop, h]
      exact ih rest hl1' hrest ms al
    · rw [List.cons_append]
      show enforceLoop e deff r (q :: (l1 ++ rest)) ms al = out
      simp only [enforceLoop, h, heff]
      have : (PolicyEffect.allow = PolicyEffect.deny) = False := by simp
      simp only [this, if_false]
      exact ih rest hl1' hrest (ms ++ [q]) true

/-- If no policy in the list matches, the loop leaves the allow flag as it
found it and falls through to the default effect. -/
lemma enforceLoop_all_nomatch (e : enforcer α) (deff : PolicyEffect) (r : Request) :
    ∀ ps : List Policy, (∀ q ∈ ps, evalPolicy e r q = Except.ok false) →
      ∀ ms al, enforceLoop e deff r ps ms al =
        if al = false ∧ deff = PolicyEffect.deny then
          Except.error (NewErrRequestDeniedImplicit
            "access denied because no policy allowed access")
        else Except.ok () := by
  intro ps
  induction ps with
  | nil => intro _ ms al; rfl
  | cons q rest ih =>
    intro h ms al
    have hq := h q (by simp)
    simp only [enforceLoop, hq]
    exact ih (fun q2 hq2 => h q2 (by simp [hq2])) ms al

/-- Once the allow flag is set, a list of inert policies ends in success. -/
lemma enforceLoop_clean_allowed (e : enforcer α) (deff : PolicyEffect) (r : Request) :
    ∀ ps : List Policy,
      (∀ q ∈ ps, evalPolicy e r q = Except.ok false ∨
        (evalPolicy e r q = Except.ok true ∧ q.Effect = PolicyEffect.allow)) →
      ∀ ms, enforceLoop e deff r ps ms true = Except.ok () := by
  intro ps
  induction ps with
  | nil => intro _ ms; simp [enforceLoop]
  | cons q rest ih =>
    intro h ms
    have hrest : ∀ q2 ∈ rest, evalPolicy e r q2 = Except.ok false ∨
        (evalPolicy e r q2 = Except.ok true ∧ q2.Effect = PolicyEffect.allow) :=
      fun q2 hq2 => h q2 (by simp [hq2])
    rcases h q (by simp) with hq | ⟨hq, heff⟩
    · simp only [enforceLoop, hq]
      exact ih hrest ms
    · simp only [enforceLoop, hq, heff]
      have : (PolicyEffect.allow = PolicyEffect.deny) = False := by simp
      simp only [this, if_false]
      exact ih hrest (ms ++ [q])

/-- A list of inert policies containing at least one match ends in
success regardless of the default effect. -/
lemma enforceLoop_clean_some_match (e : enforcer α) (deff : PolicyEffect) (r : Request) :
    ∀ ps : List Policy,
      (∀ q ∈ ps, evalPolicy e r q = Except.ok false ∨
        (evalPolicy e r q = Except.ok true ∧ q.Effect = PolicyEffect.allow)) →
      (∃ q ∈ ps, evalPolicy e r q = Except.ok true) →
      ∀ ms al, enforceLoop e deff r ps ms al = Except.ok () := by
  intro ps
  induction ps with
  | nil => intro _ hex; rcases hex with ⟨q, hq, _⟩; cases hq
  | cons q rest ih =>
    intro h hex ms al
    have hrest : ∀ q2 ∈ rest, evalPolicy e r q2 = Except.ok false ∨
        (evalPolicy e r q2 = Except.ok true ∧ q2.Effect = PolicyEffect.allow) :=
      fun q2 hq2 => h q2 (by simp [hq2])
    rcases h q (by simp) with hq | ⟨hq, heff⟩
    · simp only [enforceLoop, hq]
      apply ih hrest _ ms al
      rcases hex with ⟨q2, hq2, hm2⟩
      rcases List.mem_cons.mp hq2 with rfl | hq2
      · rw [hq] at hm2; cases hm2
      · exact ⟨q2, hq2, hm2⟩
    · simp only [enforceLoop, hq, heff]
      have : (PolicyEffect.allow = PolicyEffect.deny) = False := by simp
      simp only [this, if_false]
      exact enforceLoop_clean_allowed e deff r rest hrest (ms ++ [q])

/-! ### The claims -/

/-- Claim C1: for every request, if any policy matching the request has
effect Deny, `Enforce` returns an explicit-denial error naming the
identity of a matching Deny policy — the first such policy `p` in the
order returned by the Policy Manager (the policies before it, `l1`, are
non-matching or matching with effect Allow) — no permission is granted no
matter how many Allow policies also match, and no candidate after that
Deny is evaluated: the suffix `l2` is arbitrary and the result does not
depend on it (it may even contain policies whose evaluation would
error). -/
theorem claim_C1_deny_overrides (α : Type) (e : enforcer α) (deff : PolicyEffect)
    (r : Request) (l1 l2 : List Policy) (p : Policy)
    (hm : e.manager.FindByRequest r = Except.ok (l1 ++ p :: l2))
    (hl1 : ∀ q ∈ l1, evalPolicy e r q = Except.ok false ∨
      (evalPolicy e r q = Except.ok true ∧ q.Effect = PolicyEffect.allow))
    (hp : evalPolicy e r p = Except.ok true)
    (hdeny : p.Effect = PolicyEffect.deny) :
    Enforce e deff r =
      Except.error (NewErrRequestDeniedExplicit ("access denied by policy " ++ p.ID)) := by
  unfold Enforce
  rw [hm]
  exact enforceLoop_inert_front e deff r _ l1 (p :: l2) hl1
    (fun ms al => by simp only [enforceLoop, hp, hdeny, if_pos]) [] false

/-- Witness for C1: the spec's worked scenario with an extra trailing
policy, run under an Allow default effect; P2's deny wins. -/
theorem claim_C1_witness :
    Enforce (sampleEnforcer [pAllow, pDeny, pOther]) PolicyEffect.allow sampleReq =
      Except.error (NewErrRequestDeniedExplicit "access denied by policy p2") :=
  claim_C1_deny_overrides Unit (sampleEnforcer [pAllow, pDeny, pOther]) PolicyEffect.allow
    sampleReq [pAllow] [pOther] pDeny rfl
    (by
      intro q hq
      rw [List.mem_singleton] at hq
      subst hq
      exact Or.inr ⟨rfl, rfl⟩)
    rfl rfl

/-- Claim C2: for a candidate list that completes without an explicit deny
(every candidate is non-matching or matches with effect Allow), `Enforce`
returns an implicit-denial error carrying no policy identity when no
policy matched and the default effect is Deny, and otherwise returns no
error — in particular whenever at least one Allow policy matched. -/
theorem claim_C2_loop_completion (α : Type) (e : enforcer α) (deff : PolicyEffect)
    (r : Request) (ps : List Policy)
    (hm : e.manager.FindByRequest r = Except.ok ps)
    (hclean : ∀ q ∈ ps, evalPolicy e r q = Except.ok false ∨
      (evalPolicy e r q = Except.ok true ∧ q.Effect = PolicyEffect.allow)) :
    ((∀ q ∈ ps, evalPolicy e r q = Except.ok false) → deff = PolicyEffect.deny →
      Enforce e deff r = Except.error (NewErrRequestDeniedImplicit
        "access denied because no policy allowed access"))
    ∧ ((∃ q ∈ ps, evalPolicy e r q = Except.ok true) ∨ deff = PolicyEffect.allow →
      Enforce e deff r = Except.ok ()) := by
  constructor
  · intro hno hdeff
    unfold Enforce
    rw [hm]
    show enforceLoop e deff r ps [] false = _
    rw [enforceLoop_all_nomatch e deff r ps hno [] false]
    simp [hdeff]
  · intro h
    unfold Enforce
    rw [hm]
    show enforceLoop e deff r ps [] false = _
    rcases h with hex | hallow
    · exact enforceLoop_clean_some_match e deff r ps hclean hex [] false
    · rcases Classical.em (∃ q ∈ ps, evalPolicy e r q = Except.ok true) with hex | hnex
      · exact enforceLoop_clean_some_match e deff r ps hclean hex [] false
      · have hno : ∀ q ∈ ps, evalPolicy e r q = Except.ok false := by
          intro q hq
          rcases hclean q hq with h1 | ⟨h1, _⟩
          · exact h1
          · exact absurd ⟨q, hq, h1⟩ hnex
        rw [enforceLoop_all_nomatch e deff r ps hno [] false]
        simp [hallow]

/-- Witness for C2: no candidate matches under a Deny default (the spec's
empty-manager scenario) gives the implicit denial; a single matching Allow
policy gives success. -/
theorem claim_C2_witness :
    Enforce (sampleEnforcer [pOther]) PolicyEffect.deny sampleReq =
      Except.error (NewErrRequestDeniedImplicit
        "access denied because no policy allowed access")
    ∧ Enforce (sampleEnforcer [pAllow]) PolicyEffect.deny sampleReq = Except.ok () := by
  constructor
  · exact (claim_C2_loop_completion Unit (sampleEnforcer [pOther]) PolicyEffect.deny sampleReq
      [pOther] rfl
      (by intro q hq; rw [List.mem_singleton] at hq; subst hq; exact Or.inl rfl)).1
      (by intro q hq; rw [List.mem_singleton] at hq; subst hq; rfl) rfl
  · exact (claim_C2_loop_completion Unit (sampleEnforcer [pAllow]) PolicyEffect.deny sampleReq
      [pAllow] rfl
      (by intro q hq; rw [List.mem_singleton] at hq; subst hq; exact Or.inr ⟨rfl, rfl⟩)).2
      (Or.inl ⟨pAllow, by simp, rfl⟩)

/-- The role loop reads only the matcher, never the auditor. -/
lemma matchRoles_auditor_irrelevant (mgr : PolicyManager) (m : Matcher)
    (a : Option α) (b : Option β) (r : Request) :
    ∀ roles, matchRoles ⟨mgr, m, a⟩ r roles = matchRoles ⟨mgr, m, b⟩ r roles := by
  intro roles
  induction roles with
  | nil => rfl
  | cons role rest ih =>
    simp only [matchRoles]
    cases m.MatchRole role r.Role with
    | error err => rfl
    | ok bb =>
      cases bb with
      | true => rfl
      | false => exact ih

/-- Evaluating a policy reads only the matcher, never the auditor. -/
lemma evalPolicy_auditor_irrelevant (mgr : PolicyManager) (m : Matcher)
    (a : Option α) (b : Option β) (r : Request) (p : Policy) :
    evalPolicy ⟨mgr, m, a⟩ r p = evalPolicy ⟨mgr, m, b⟩ r p := by
  simp only [evalPolicy, matchRoles_auditor_irrelevant mgr m a b r]

/-- The candidate loop reads only the matcher, never the auditor. -/
lemma enforceLoop_auditor_irrelevant (mgr : PolicyManager) (m : Matcher)
    (a : Option α) (b : Option β) (deff : PolicyEffect) (r : Request) :
    ∀ (ps ms : List Policy) (al : Bool),
      enforceLoop ⟨mgr, m, a⟩ deff r ps ms al = enforceLoop ⟨mgr, m, b⟩ deff r ps ms al := by
  intro ps
  induction ps with
  | nil => intro ms al; rfl
  | cons p rest ih =>
    intro ms al
    simp only [enforceLoop, evalPolicy_auditor_irrelevant mgr m a b r p]
    cases evalPolicy ⟨mgr, m, b⟩ r p with
    | error err => rfl
    | ok mtch =>
      cases mtch with
      | false => exact ih ms al
      | true =>
        by_cases hd : p.Effect = PolicyEffect.deny
        · simp [hd]
        · simp only [hd, if_false]
          exact ih (ms ++ [p]) true

/-- Claim C10: the result of `Enforce` is independent of the enforcer's
auditor: two enforcers differing only in their auditor (even in its type,
and including a nil auditor) return the same result for the same request,
manager, matcher and default effect — `Enforce` never invokes the
auditor. -/
theorem claim_C10_auditor_independence (α β : Type) (mgr : PolicyManager) (m : Matcher)
    (a : Option α) (b : Option β) (deff : PolicyEffect) (r : Request) :
    Enforce ⟨mgr, m, a⟩ deff r = Enforce ⟨mgr, m, b⟩ deff r := by
  unfold Enforce
  cases mgr.FindByRequest r with
  | error err => rfl
  | ok pol => exact enforceLoop_auditor_irrelevant mgr m a b deff r pol [] false

/-- Claim C3: errors from the collaborators are propagated, not turned
into denials. In order: a Policy Manager error is returned verbatim; a
Matcher error while evaluating a reached candidate aborts the whole
decision with that error; within one candidate, an error from the action,
role, resource or scope stage (each stage reached because the earlier
stages passed) aborts `evalPolicy` with that error; and the propagated
error kind is distinguishable from both denial kinds. -/
theorem claim_C3_error_propagation (α : Type) (e : enforcer α) (deff : PolicyEffect)
    (r : Request) (err : GoError) :
    (e.manager.FindByRequest r = Except.error err → Enforce e deff r = Except.error err)
    ∧ (∀ l1 l2 p, e.manager.FindByRequest r = Except.ok (l1 ++ p :: l2) →
        (∀ q ∈ l1, evalPolicy e r q = Except.ok false ∨
          (evalPolicy e r q = Except.ok true ∧ q.Effect = PolicyEffect.allow)) →
        evalPolicy e r p = Except.error err →
        Enforce e deff r = Except.error err)
    ∧ (∀ p, e.matcher.MatchPolicy p p.Actions r.Action = Except.error err →
        evalPolicy e r p = Except.error err)
    ∧ (∀ p role rest, p.Roles = role :: rest →
        e.matcher.MatchPolicy p p.Actions r.Action = Except.ok true →
        e.matcher.MatchRole role r.Role = Except.error err →
        evalPolicy e r p = Except.error err)
    ∧ (∀ p, e.matcher.MatchPolicy p p.Actions r.Action = Except.ok true →
        matchRoles e r p.Roles = Except.ok true →
        e.matcher.MatchPolicy p p.Resources r.Resource = Except.error err →
        evalPolicy e r p = Except.error err)
    ∧ (∀ p, e.matcher.MatchPolicy p p.Actions r.Action = Except.ok true →
        matchRoles e r p.Roles = Except.ok true →
        e.matcher.MatchPolicy p p.Resources r.Resource = Except.ok true →
        e.matcher.MatchPolicy p p.Scopes r.Scope = Except.error err →
        evalPolicy e r p = Except.error err)
    ∧ (∀ s eid iid, GoError.generic s ≠ NewErrRequestDeniedExplicit eid ∧
        GoError.generic s ≠ NewErrRequestDeniedImplicit iid) := by
  refine ⟨?_, ?_, ?_, ?_, ?_, ?_, ?_⟩
  · intro h
    unfold Enforce
    rw [h]
  · intro l1 l2 p hm hl1 hp
    unfold Enforce
    rw [hm]
    exact enforceLoop_inert_front e deff r _ l1 (p :: l2) hl1
      (fun ms al => by simp only [enforceLoop, hp]) [] false
  · intro p h
    simp only [evalPolicy, h]
  · intro p role rest hroles ha hrole
    simp only [evalPolicy, ha, hroles, matchRoles, hrole]
  · intro p ha hr hres
    simp only [evalPolicy, ha, hr, hres]
  · intro p ha hr hres hsc
    simp only [evalPolicy, ha, hr, hres, hsc]
  · intro s eid iid
    exact ⟨by simp [NewErrRequestDeniedExplicit], by simp [NewErrRequestDeniedImplicit]⟩

/-- Witness for C3: a failing policy manager's error comes back verbatim,
and a failing matcher aborts the decision with its own error; neither is a
denial-kind error. -/
theorem claim_C3_witness :
    Enforce (⟨failManager "store down", exactMatcher, none⟩ : enforcer Unit)
        PolicyEffect.deny sampleReq = Except.error (GoError.generic "store down")
    ∧ Enforce (⟨listManager [pAllow], errMatcher "bad pattern", none⟩ : enforcer Unit)
        PolicyEffect.deny sampleReq = Except.error (GoError.generic "bad pattern")
    ∧ GoError.generic "store down" ≠ NewErrRequestDeniedExplicit "p2" := by
  refine ⟨?_, ?_, ?_⟩
  · exact (claim_C3_error_propagation Unit ⟨failManager "store down", exactMatcher, none⟩
      PolicyEffect.deny sampleReq (GoError.generic "store down")).1 rfl
  · exact (claim_C3_error_propagation Unit ⟨listManager [pAllow], errMatcher "bad pattern", none⟩
      PolicyEffect.deny sampleReq (GoError.generic "bad pattern")).2.1 [] [] pAllow rfl
      (by intro q hq; cases hq) rfl
  · exact ((claim_C3_error_propagation Unit ⟨failManager "store down", exactMatcher, none⟩
      PolicyEffect.deny sampleReq (GoError.generic "store down")).2.2.2.2.2.2
      "store down" "p2" "x").1

/-- Claim C7: once a policy has passed the action, role, resource and
scope stages, `evalPolicy` returns exactly the condition stage's verdict;
that verdict is true iff every attached condition accepts the metadata
value looked up under its key name (logical AND); and a policy with zero
conditions always passes the stage. -/
theorem claim_C7_condition_stage (α : Type) (e : enforcer α) (r : Request) (p : Policy)
    (ha : e.matcher.MatchPolicy p p.Actions r.Action = Except.ok true)
    (hr : matchRoles e r p.Roles = Except.ok true)
    (hres : e.matcher.MatchPolicy p p.Resources r.Resource = Except.ok true)
    (hsc : e.matcher.MatchPolicy p p.Scopes r.Scope = Except.ok true) :
    evalPolicy e r p = Except.ok (checkConditions p r)
    ∧ (checkConditions p r = true ↔
        ∀ kv ∈ p.Conditions,
          kv.2.Meets (lookupMeta (RequestMetadataFromContext r.Context) kv.1) r = true)
    ∧ (p.Conditions = [] → checkConditions p r = true) := by
  refine ⟨?_, ?_, ?_⟩
  · simp only [evalPolicy, ha, hr, hres, hsc]
    cases h : checkConditions p r <;> simp [h]
  · simp [checkConditions, List.all_eq_true]
  · intro h
    simp [checkConditions, h]

/-- Witness for C7: with all four pattern stages passing, the policy with
a satisfied `bool` condition matches, and the zero-condition policy passes
the condition stage. -/
theorem claim_C7_witness :
    evalPolicy (sampleEnforcer []) sampleReqMeta pCond = Except.ok true
    ∧ checkConditions pAllow sampleReqMeta = true := by
  constructor
  · have h := (claim_C7_condition_stage Unit (sampleEnforcer []) sampleReqMeta pCond
      rfl rfl rfl rfl).1
    rw [h]
    rfl
  · exact (claim_C7_condition_stage Unit (sampleEnforcer []) sampleReqMeta pAllow
      rfl rfl rfl rfl).2.2 rfl

/-! ### Lemmas on the conditions map and the `NewConditions` loop -/

/-- Dropping or keeping the head under the overwrite filter. -/
lemma condInsert_cons_drop (kv : String × Condition) (m : Conditions) (k : String)
    (v : Condition) (hk : kv.1 = k) :
    condInsert (kv :: m) k v = condInsert m k v := by
  simp [condInsert, List.filter_cons, hk]

lemma condInsert_cons_keep (kv : String × Condition) (m : Conditions) (k : String)
    (v : Condition) (hk : ¬ kv.1 = k) :
    condInsert (kv :: m) k v = kv :: condInsert m k v := by
  simp [condInsert, List.filter_cons, hk]

/-- Lookup skips a head entry with a different key. -/
lemma condLookup_cons_skip (kv : String × Condition) (m : Conditions) (n : String)
    (hn : ¬ kv.1 = n) :
    condLookup (kv :: m) n = condLookup m n := by
  unfold condLookup
  rw [List.find?_cons_of_neg]
  simp [hn]

/-- Lookup hits a head entry with the same key. -/
lemma condLookup_cons_hit (kv : String × Condition) (m : Conditions) (n : String)
    (hn : kv.1 = n) :
    condLookup (kv :: m) n = some kv.2 := by
  unfold condLookup
  rw [List.find?_cons_of_pos _ (by simp [hn])]
  rfl

/-- Inserting under `k` binds `k` to the new condition. -/
lemma condLookup_insert_self (k : String) (v : Condition) :
    ∀ m : Conditions, condLookup (condInsert m k v) k = some v := by
  intro m
  induction m with
  | nil => simp [condInsert, condLookup, List.find?]
  | cons kv m ih =>
    by_cases hk : kv.1 = k
    · rw [condInsert_cons_drop kv m k v hk]
      exact ih
    · rw [condInsert_cons_keep kv m k v hk, condLookup_cons_skip kv _ k hk]
      exact ih

/-- Inserting under `k` leaves every other key's binding unchanged. -/
lemma condLookup_insert_other (k n : String) (v : Condition) (hnk : n ≠ k) :
    ∀ m : Conditions, condLookup (condInsert m k v) n = condLookup m n := by
  intro m
  induction m with
  | nil => simp [condInsert, condLookup, List.find?, Ne.symm hnk]
  | cons kv m ih =>
    by_cases hk : kv.1 = k
    · have hn2 : ¬ kv.1 = n := by rw [hk]; exact Ne.symm hnk
      rw [condInsert_cons_drop kv m k v hk, ih, condLookup_cons_skip kv m n hn2]
    · rw [condInsert_cons_keep kv m k v hk]
      by_cases hn : kv.1 = n
      · rw [condLookup_cons_hit kv _ n hn, condLookup_cons_hit kv m n hn]
      · rw [condLookup_cons_skip kv _ n hn, condLookup_cons_skip kv m n hn]
        exact ih

/-- An unregistered head entry is skipped. -/
lemma newConditionsLoop_skip (decode : DecodeFn) (reg : ConditionRegistry)
    (co : ConditionOptions) (rest : List ConditionOptions) (acc : Conditions)
    (h : reg co.CType = none) :
    newConditionsLoop decode reg (co :: rest) acc = newConditionsLoop decode reg rest acc := by
  simp [newConditionsLoop, h]

/-- A registered head entry whose decoding step succeeds with `c` is
stored under its `Name` before the rest is processed (an empty option bag
skips decoding and stores the freshly built condition). -/
lemma newConditionsLoop_store (decode : DecodeFn) (reg : ConditionRegistry)
    (co : ConditionOptions) (rest : List ConditionOptions) (acc : Conditions)
    (cf : ConditionBuilder) (c : Condition)
    (h : reg co.CType = some cf)
    (hc : (if co.Options.length > 0 then decode co.Options (cf ())
      else Except.ok (cf ())) = Except.ok c) :
    newConditionsLoop decode reg (co :: rest) acc =
      newConditionsLoop decode reg rest (condInsert acc co.Name c) := by
  simp only [newConditionsLoop, h]
  by_cases hl : co.Options.length > 0
  · rw [if_pos hl] at hc
    simp [hl, hc]
  · rw [if_neg hl] at hc
    cases hc
    simp [hl]

/-- A registered head entry whose option bag is non-empty and fails to
decode aborts the loop with the decode error. -/
lemma newConditionsLoop_decode_error (decode : DecodeFn) (reg : ConditionRegistry)
    (co : ConditionOptions) (rest : List ConditionOptions) (acc : Conditions)
    (cf : ConditionBuilder) (err : GoError)
    (h : reg co.CType = some cf) (hl : co.Options.length > 0)
    (hd : decode co.Options (cf ()) = Except.error err) :
    newConditionsLoop decode reg (co :: rest) acc = Except.error err := by
  simp [newConditionsLoop, h, hl, hd]

/-- Removing an unregistered entry anywhere in the option list does not
change the build's result. -/
lemma newConditionsLoop_remove_skipped (decode : DecodeFn) (reg : ConditionRegistry)
    (co : ConditionOptions) (h : reg co.CType = none) :
    ∀ (l1 l2 : List ConditionOptions) (acc : Conditions),
      newConditionsLoop decode reg (l1 ++ co :: l2) acc =
        newConditionsLoop decode reg (l1 ++ l2) acc := by
  intro l1
  induction l1 with
  | nil =>
    intro l2 acc
    simpa using newConditionsLoop_skip decode reg co l2 acc h
  | cons co2 l1 ih =>
    intro l2 acc
    rw [List.cons_append, List.cons_append]
    cases h2 : reg co2.CType with
    | none =>
      rw [newConditionsLoop_skip decode reg co2 _ acc h2,
        newConditionsLoop_skip decode reg co2 _ acc h2]
      exact ih l2 acc
    | some cf =>
      cases hd : (if co2.Options.length > 0 then decode co2.Options (cf ())
          else Except.ok (cf ())) with
      | error err =>
        have hl : co2.Options.length > 0 := by
          by_contra hl
          rw [if_neg hl] at hd
          cases hd
        rw [if_pos hl] at hd
        rw [newConditionsLoop_decode_error decode reg co2 _ acc cf err h2 hl hd,
          newConditionsLoop_decode_error decode reg co2 _ acc cf err h2 hl hd]
      | ok c =>
        rw [newConditionsLoop_store decode reg co2 _ acc cf c h2 hd,
          newConditionsLoop_store decode reg co2 _ acc cf c h2 hd]
        exact ih l2 _

/-- A successful build whose processed entries never bear the name `n`
leaves `n` bound exactly as in the accumulator. -/
lemma newConditionsLoop_other_names (decode : DecodeFn) (reg : ConditionRegistry)
    (n : String) :
    ∀ (opts : List ConditionOptions) (acc : Conditions) (m : Conditions),
      (∀ co ∈ opts, co.Name ≠ n) →
      newConditionsLoop decode reg opts acc = Except.ok m →
      condLookup m n = condLookup acc n := by
  intro opts
  induction opts with
  | nil =>
    intro acc m _ hok
    cases hok
    rfl
  | cons co rest ih =>
    intro acc m hname hok
    have hrest : ∀ co2 ∈ rest, co2.Name ≠ n := fun co2 h2 => hname co2 (by simp [h2])
    cases h2 : reg co.CType with
    | none =>
      rw [newConditionsLoop_skip decode reg co rest acc h2] at hok
      exact ih acc m hrest hok
    | some cf =>
      cases hd : (if co.Options.length > 0 then decode co.Options (cf ())
          else Except.ok (cf ())) with
      | error err =>
        have hl : co.Options.length > 0 := by
          by_contra hl
          rw [if_neg hl] at hd
          cases hd
        rw [if_pos hl] at hd
        rw [newConditionsLoop_decode_error decode reg co rest acc cf err h2 hl hd] at hok
        cases hok
      | ok c =>
        rw [newConditionsLoop_store decode reg co rest acc cf c h2 hd] at hok
        rw [ih _ m hrest hok]
        exact condLookup_insert_other co.Name n c
          (fun h => hname co (by simp) h.symm) acc

/-- If processing a prefix succeeds, the whole build equals processing the
suffix from some intermediate accumulator. -/
lemma newConditionsLoop_front_ok (decode : DecodeFn) (reg : ConditionRegistry) :
    ∀ (l1 rest : List ConditionOptions) (acc : Conditions) (m : Conditions),
      newConditionsLoop decode reg (l1 ++ rest) acc = Except.ok m →
      ∃ acc2, newConditionsLoop decode reg rest acc2 = Except.ok m := by
  intro l1
  induction l1 with
  | nil =>
    intro rest acc m hok
    exact ⟨acc, by simpa using hok⟩
  | cons co l1 ih =>
    intro rest acc m hok
    rw [List.cons_append] at hok
    cases h2 : reg co.CType with
    | none =>
      rw [newConditionsLoop_skip decode reg co _ acc h2] at hok
      exact ih rest acc m hok
    | some cf =>
      cases hd : (if co.Options.length > 0 then decode co.Options (cf ())
          else Except.ok (cf ())) with
      | error err =>
        have hl : co.Options.length > 0 := by
          by_contra hl
          rw [if_neg hl] at hd
          cases hd
        rw [if_pos hl] at hd
        rw [newConditionsLoop_decode_error decode reg co _ acc cf err h2 hl hd] at hok
        cases hok
      | ok c =>
        rw [newConditionsLoop_store decode reg co _ acc cf c h2 hd] at hok
        exact ih rest _ m hok

/-- Claim C6: `NewConditions`, for every option list, registry and
decoding behaviour. (i) An entry whose `Type` is not in the registry is
silently skipped: the build result is the same as if the entry were
absent — so no error arises from it and it contributes no key. (ii)
Consequently, if no other entry bears its `Name`, that name is absent
from a successful result. (iii) For a registered `Type` the factory's
fresh condition is decoded from a non-empty option bag, and a decode
failure is a hard error aborting the whole build. (iv) On success the
(possibly decoded) condition is stored under the entry's `Name` — not its
`Type`: a successful build binds that name to exactly that condition when
no later entry rebinds it. -/
theorem claim_C6_new_conditions (decode : DecodeFn) (reg : ConditionRegistry)
    (co : ConditionOptions) (l1 l2 : List ConditionOptions) :
    (reg co.CType = none →
      NewConditions decode (l1 ++ co :: l2) (some reg) =
        NewConditions decode (l1 ++ l2) (some reg))
    ∧ (reg co.CType = none → (∀ co2 ∈ l1 ++ l2, co2.Name ≠ co.Name) →
      ∀ m, NewConditions decode (l1 ++ co :: l2) (some reg) = Except.ok m →
        condLookup m co.Name = none)
    ∧ (∀ cf err, reg co.CType = some cf → co.Options.length > 0 →
        decode co.Options (cf ()) = Except.error err →
        (∀ co2 ∈ l1, reg co2.CType = none) →
        NewConditions decode (l1 ++ co :: l2) (some reg) = Except.error err)
    ∧ (∀ cf c, reg co.CType = some cf →
        (if co.Options.length > 0 then decode co.Options (cf ())
          else Except.ok (cf ())) = Except.ok c →
        (∀ co2 ∈ l2, co2.Name ≠ co.Name) →
        ∀ m, NewConditions decode (l1 ++ co :: l2) (some reg) = Except.ok m →
          condLookup m co.Name = some c) := by
  refine ⟨?_, ?_, ?_, ?_⟩
  · intro h
    unfold NewConditions
    exact newConditionsLoop_remove_skipped decode reg co h l1 l2 []
  · intro h hnames m hok
    unfold NewConditions at hok
    rw [Option.getD_some] at hok
    rw [newConditionsLoop_remove_skipped decode reg co h l1 l2 []] at hok
    rw [newConditionsLoop_other_names decode reg co.Name (l1 ++ l2) [] m
      (fun co2 h2 => hnames co2 h2) hok]
    rfl
  · intro cf err h hl hd hl1
    unfold NewConditions
    rw [Option.getD_some]
    induction l1 with
    | nil =>
      simpa using newConditionsLoop_decode_error decode reg co l2 [] cf err h hl hd
    | cons co2 l1 ih =>
      rw [List.cons_append,
        newConditionsLoop_skip decode reg co2 _ [] (hl1 co2 (by simp))]
      exact ih (fun co3 h3 => hl1 co3 (by simp [h3]))
  · intro cf c h hc hl2 m hok
    unfold NewConditions at hok
    rw [Option.getD_some] at hok
    rcases newConditionsLoop_front_ok decode reg l1 (co :: l2) [] m hok with ⟨acc2, hok2⟩
    rw [newConditionsLoop_store decode reg co l2 acc2 cf c h hc] at hok2
    rw [newConditionsLoop_other_names decode reg co.Name l2 _ m hl2 hok2]
    exact condLookup_insert_self co.Name c acc2

/-- Witness for C6 over the default registry: an unregistered entry is
skipped without error and leaves its name unbound; a decode failure
aborts the build; a decoded entry is stored under its `Name`. -/
theorem claim_C6_witness :
    NewConditions idDecode [coUnknown, coBool] (some (NewConditionRegistry [])) =
      NewConditions idDecode [coBool] (some (NewConditionRegistry []))
    ∧ condLookup [("myflag", (BoolCondition.mk false).asCondition)] "mystery" = none
    ∧ NewConditions failDecode [coUnknown, coBool] (some (NewConditionRegistry [])) =
      Except.error (GoError.generic "decode failed")
    ∧ condLookup [("myflag", (BoolCondition.mk false).asCondition)] "myflag" =
      some ((BoolCondition.mk false).asCondition) := by
  refine ⟨?_, ?_, ?_, ?_⟩
  · exact ((claim_C6_new_conditions idDecode (NewConditionRegistry []) coUnknown
      [] [coBool]).1 rfl)
  · exact ((claim_C6_new_conditions idDecode (NewConditionRegistry []) coUnknown
      [] [coBool]).2.1 rfl
      (by intro co2 h2; rw [List.nil_append, List.mem_singleton] at h2; subst h2; simp [coBool, coUnknown])
      [("myflag", (BoolCondition.mk false).asCondition)] rfl)
  · exact ((claim_C6_new_conditions failDecode (NewConditionRegistry []) coBool
      [coUnknown] []).2.2.1 (fun _ => (BoolCondition.mk false).asCondition)
      (GoError.generic "decode failed") rfl (by simp [coBool]) rfl
      (by intro co2 h2; rw [List.mem_singleton] at h2; subst h2; rfl))
  · exact ((claim_C6_new_conditions idDecode (NewConditionRegistry []) coBool
      [coUnknown] []).2.2.2 (fun _ => (BoolCondition.mk false).asCondition)
      ((BoolCondition.mk false).asCondition) rfl (by simp [coBool, idDecode])
      (by intro co2 h2; cases h2)
      [("myflag", (BoolCondition.mk false).asCondition)] rfl)

/-- Claim C4 (code behaviour at the failing input): the claim says a
malformed CIDR entry yields no match for that entry only and does not
block the remaining configured networks, so that
`Meets ⟨["not a cidr", "10.0.0.0/24"]⟩ "10.0.0.5"` should be true. The
code instead returns `false` as soon as `net.ParseCIDR` fails on the
first entry (first conjunct — the divergence), contradicting both the
method's own doc comment ("evaluates true when the network address in val
is contained within one of the CIDR ranges of
IPWhitelistCondition#Networks") and the spec's stated intent. The claim's
remaining concrete facts do hold on the code: with networks
`["10.0.0.0/24"]`, "10.0.0.5" matches while "10.0.1.5", a non-string
value and the nil value do not. -/
theorem claim_C4_malformed_cidr_blocks (r : Request) :
    IPWhitelistCondition.Meets ⟨["not a cidr", "10.0.0.0/24"]⟩
        (GoValue.vstr "10.0.0.5") r = false
    ∧ IPWhitelistCondition.Meets ⟨["10.0.0.0/24"]⟩ (GoValue.vstr "10.0.0.5") r = true
    ∧ IPWhitelistCondition.Meets ⟨["10.0.0.0/24"]⟩ (GoValue.vstr "10.0.1.5") r = false
    ∧ IPWhitelistCondition.Meets ⟨["10.0.0.0/24"]⟩ (GoValue.vbool true) r = false
    ∧ IPWhitelistCondition.Meets ⟨["10.0.0.0/24"]⟩ GoValue.vnone r = false :=
  ⟨rfl, rfl, rfl, rfl, rfl⟩

/-- Closed form of the C4 evaluation at the failing input. -/
theorem claim_C4_witness :
    IPWhitelistCondition.Meets ⟨["not a cidr", "10.0.0.0/24"]⟩
        (GoValue.vstr "10.0.0.5") sampleReq = false :=
  (claim_C4_malformed_cidr_blocks sampleReq).1

/-- Claim C5: each built-in condition's `Meets` is a total Lean function
(hence pure and deterministic), and a failed type assertion on the value —
any dynamic shape other than the one the condition inspects — yields
`false`; a missing metadata key yields the zero-value lookup
`GoValue.vnone`, on which all three built-ins also yield `false`. Nothing
in the decision path can abort: the `Meets` functions return `Bool`, not
`Except`. -/
theorem claim_C5_conditions_never_fail (c : BoolCondition) (rc : RoleEqualsCondition)
    (ic : IPWhitelistCondition) (v : GoValue) (r : Request)
    (m : List (String × GoValue)) (k : String) :
    ((∀ b, v ≠ GoValue.vbool b) → BoolCondition.Meets c v r = false)
    ∧ ((∀ s, v ≠ GoValue.vstr s) → RoleEqualsCondition.Meets rc v r = false)
    ∧ ((∀ s, v ≠ GoValue.vstr s) → IPWhitelistCondition.Meets ic v r = false)
    ∧ ((∀ kv ∈ m, kv.1 ≠ k) → lookupMeta m k = GoValue.vnone)
    ∧ BoolCondition.Meets c GoValue.vnone r = false
    ∧ RoleEqualsCondition.Meets rc GoValue.vnone r = false
    ∧ IPWhitelistCondition.Meets ic GoValue.vnone r = false := by
  refine ⟨?_, ?_, ?_, ?_, rfl, rfl, rfl⟩
  · intro h
    cases v with
    | vbool b => exact absurd rfl (h b)
    | vstr s => rfl
    | vnone => rfl
    | vother => rfl
  · intro h
    cases v with
    | vstr s => exact absurd rfl (h s)
    | vbool b => rfl
    | vnone => rfl
    | vother => rfl
  · intro h
    cases v with
    | vstr s => exact absurd rfl (h s)
    | vbool b => rfl
    | vnone => rfl
    | vother => rfl
  · intro h
    have : List.find? (fun kv => kv.1 = k) m = none := by
      rw [List.find?_eq_none]
      intro kv hkv
      simp [h kv hkv]
    simp [lookupMeta, this]

/-- Witness for C5: a wrong-shape value and an absent key both give
`false` for the built-ins configured arbitrarily. -/
theorem claim_C5_witness :
    BoolCondition.Meets ⟨true⟩ (GoValue.vstr "true") sampleReq = false
    ∧ RoleEqualsCondition.Meets ⟨⟩ (GoValue.vbool true) sampleReq = false
    ∧ IPWhitelistCondition.Meets ⟨["10.0.0.0/24"]⟩ GoValue.vother sampleReq = false
    ∧ lookupMeta [("other", GoValue.vbool true)] "mfa" = GoValue.vnone := by
  refine ⟨?_, ?_, ?_, ?_⟩
  · exact (claim_C5_conditions_never_fail ⟨true⟩ ⟨⟩ ⟨[]⟩ (GoValue.vstr "true") sampleReq
      [] "k").1 (by intro b h; cases h)
  · exact (claim_C5_conditions_never_fail ⟨true⟩ ⟨⟩ ⟨[]⟩ (GoValue.vbool true) sampleReq
      [] "k").2.1 (by intro s h; cases h)
  · exact (claim_C5_conditions_never_fail ⟨true⟩ ⟨⟩ ⟨["10.0.0.0/24"]⟩ GoValue.vother
      sampleReq [] "k").2.2.1 (by intro s h; cases h)
  · exact (claim_C5_conditions_never_fail ⟨true⟩ ⟨⟩ ⟨[]⟩ GoValue.vother sampleReq
      [("other", GoValue.vbool true)] "mfa").2.2.2.1
      (by intro kv hkv; rw [List.mem_singleton] at hkv; subst hkv; simp)

/-- Claim C8: the `bool` condition configured with value `true` accepts
exactly the boolean metadata value `true` — not `false`, not the string
"true", not an absent key (`vnone`); and `role_equals` accepts exactly a
string metadata value equal (case-sensitively, by exact string equality)
to the request's role. -/
theorem claim_C8_bool_and_role_equals (v : GoValue) (r : Request) :
    (BoolCondition.Meets ⟨true⟩ v r = true ↔ v = GoValue.vbool true)
    ∧ (RoleEqualsCondition.Meets ⟨⟩ v r = true ↔ v = GoValue.vstr r.Role) := by
  constructor
  · cases v with
    | vbool b => simp [BoolCondition.Meets]
    | vstr s => simp [BoolCondition.Meets]
    | vnone => simp [BoolCondition.Meets]
    | vother => simp [BoolCondition.Meets]
  · cases v with
    | vbool b => simp [RoleEqualsCondition.Meets]
    | vstr s => simp [RoleEqualsCondition.Meets]
    | vnone => simp [RoleEqualsCondition.Meets]
    | vother => simp [RoleEqualsCondition.Meets]

/-- Witness for C8: concrete accept/reject verdicts for both conditions
against the sample request (whose role is "admin"). -/
theorem claim_C8_witness :
    BoolCondition.Meets ⟨true⟩ (GoValue.vbool true) sampleReq = true
    ∧ BoolCondition.Meets ⟨true⟩ (GoValue.vbool false) sampleReq ≠ true
    ∧ BoolCondition.Meets ⟨true⟩ (GoValue.vstr "true") sampleReq ≠ true
    ∧ RoleEqualsCondition.Meets ⟨⟩ (GoValue.vstr "admin") sampleReq = true
    ∧ RoleEqualsCondition.Meets ⟨⟩ (GoValue.vstr "Admin") sampleReq ≠ true := by
  refine ⟨?_, ?_, ?_, ?_, ?_⟩
  · exact (claim_C8_bool_and_role_equals (GoValue.vbool true) sampleReq).1.mpr rfl
  · intro h
    have := (claim_C8_bool_and_role_equals (GoValue.vbool false) sampleReq).1.mp h
    cases this
  · intro h
    have := (claim_C8_bool_and_role_equals (GoValue.vstr "true") sampleReq).1.mp h
    cases this
  · exact (claim_C8_bool_and_role_equals (GoValue.vstr "admin") sampleReq).2.mpr rfl
  · intro h
    have := (claim_C8_bool_and_role_equals (GoValue.vstr "Admin") sampleReq).2.mp h
    simp [sampleReq] at this

/-- Claim C9: a policy whose role-pattern list is empty never matches —
under every enforcer its evaluation cannot return `ok true`; moreover with
empty roles the role stage never consults the matcher's `MatchRole` (two
matchers agreeing on `MatchPolicy` agree on the verdict). By contrast the
empty-set behaviour of the action dimension is genuinely delegated to the
Matcher: two enforcers can decide an empty-action policy differently. -/
theorem claim_C9_empty_roles_never_match (α : Type) (e : enforcer α) (r : Request)
    (p : Policy) (hroles : p.Roles = []) :
    evalPolicy e r p ≠ Except.ok true
    ∧ (∀ m2 : Matcher, m2.MatchPolicy = e.matcher.MatchPolicy →
        evalPolicy ⟨e.manager, m2, e.auditor⟩ r p = evalPolicy e r p)
    ∧ (∃ (e1 e2 : enforcer Unit) (r0 : Request) (q : Policy),
        q.Actions = [] ∧ q.Roles ≠ [] ∧
        evalPolicy e1 r0 q = Except.ok true ∧ evalPolicy e2 r0 q = Except.ok false) := by
  refine ⟨?_, ?_, ?_⟩
  · intro h
    rw [evalPolicy] at h
    cases ha : e.matcher.MatchPolicy p p.Actions r.Action with
    | error err => rw [ha] at h; cases h
    | ok am =>
      cases am with
      | false => rw [ha] at h; cases h
      | true =>
        rw [ha, hroles] at h
        simp only [matchRoles] at h
        cases h
  · intro m2 hm2
    simp only [evalPolicy, hroles, matchRoles, hm2]
  · refine ⟨⟨listManager [], allMatcher, none⟩, ⟨listManager [], noneMatcher, none⟩,
      sampleReq, ⟨"q1", PolicyEffect.allow, [], ["x"], [], [], []⟩, rfl, by simp, rfl, rfl⟩

/-- Witness for C9: the empty-role policy is not matched even by the
matcher that accepts everything. -/
theorem claim_C9_witness :
    evalPolicy (⟨listManager [], allMatcher, none⟩ : enforcer Unit) sampleReq pNoRole ≠
      Except.ok true :=
  (claim_C9_empty_roles_never_match Unit ⟨listManager [], allMatcher, none⟩ sampleReq
    pNoRole rfl).1

/-- Witness for C10: a nil auditor and a present auditor of a different
type agree on the worked scenario. -/
theorem claim_C10_witness :
    Enforce ⟨listManager [pAllow, pDeny], exactMatcher, (none : Option Unit)⟩
        PolicyEffect.deny sampleReq =
      Enforce ⟨listManager [pAllow, pDeny], exactMatcher, some (37 : Nat)⟩
        PolicyEffect.deny sampleReq :=
  claim_C10_auditor_independence Unit Nat (listManager [pAllow, pDeny]) exactMatcher
    none (some 37) PolicyEffect.deny sampleReq

end Redtape
